import Mathlib

/-!
Verification of `build_kicad_library.py` (KiCad-INO_Library) against its
natural-language specification.

The script has two stages: `update_database` (reads CSV files, sanitizes
names, creates one SQL table per file and records a `TableSpec` per
successfully processed file) and `generate_kicad_dbl` (turns the recorded
`TableSpec`s into a descriptor document of `LibraryEntry` records).

This file shallowly embeds the pure transformation core of those stages:

* `sanitize_sql_name`  — lines 37–43 of the script;
* row normalization    — lines 100–104 (`normalizeRow`);
* header processing    — lines 95–98 (`processHeaderRow`);
* the per-file SQL error handling — lines 111–135 (`processFiles`, with the
  SQL outcome of each file abstracted as an input, since it is produced by
  the external SQLite library);
* the descriptor generator — lines 164–219 (`generate_library_entry`,
  `buildFields`, `buildProperties`, `generate_kicad_dbl`).

Python dicts are modelled as insertion-ordered association lists with
in-place overwrite (`dictInsert`), matching CPython semantics.
-/

/-- The character class kept by the second regex of `sanitize_sql_name`:
`re.sub(r'[^a-zA-Z0-9_]', '', clean)` removes everything outside
`[a-zA-Z0-9_]`. -/
def isAllowedChar (c : Char) : Bool :=
  decide (('a' ≤ c ∧ c ≤ 'z') ∨ ('A' ≤ c ∧ c ≤ 'Z') ∨ ('0' ≤ c ∧ c ≤ '9') ∨ c = '_')

/-- The first regex of `sanitize_sql_name`: `re.sub(r'[ -]', '_', name)`.
The class `[ -]` consists of the literal space and hyphen characters (a
hyphen that ends a character class is literal); each occurrence is replaced
by an underscore. -/
def replaceSpaceHyphen (c : Char) : Char :=
  if c = ' ' ∨ c = '-' then '_' else c

/-- `sanitize_sql_name`, at the level of character lists.  The Python test
`clean and clean[0].isdigit()` is applied to a character already restricted
to `[a-zA-Z0-9_]`, on which Python `str.isdigit` coincides with
`Char.isDigit`; the `clean and` part is the nonempty check performed here by
matching on the list. -/
def sanitizeChars (name : List Char) : List Char :=
  match (name.map replaceSpaceHyphen).filter isAllowedChar with
  | [] => []
  | c :: cs => if c.isDigit then '_' :: c :: cs else c :: cs

/-- `sanitize_sql_name` from `build_kicad_library.py` (lines 37–43). -/
def sanitize_sql_name (name : String) : String :=
  String.mk (sanitizeChars name.data)

/-- Following the words of claim C1: replace exactly the space character and
the hyphen character with an underscore; nothing else is replaced. -/
def claimReplace : List Char → List Char
  | [] => []
  | c :: cs => (if c = ' ' then '_' else if c = '-' then '_' else c) :: claimReplace cs

/-- Following the words of claim C1: the character class `[A-Za-z0-9_]`. -/
def claimKeep (c : Char) : Bool :=
  decide (('A' ≤ c ∧ c ≤ 'Z') ∨ ('a' ≤ c ∧ c ≤ 'z') ∨ ('0' ≤ c ∧ c ≤ '9') ∨ c = '_')

/-- Following the words of claim C1: remove every character outside
`[A-Za-z0-9_]`. -/
def claimStrip : List Char → List Char
  | [] => []
  | c :: cs => if claimKeep c then c :: claimStrip cs else claimStrip cs

/-- The Name Sanitizer exactly as claim C1 words it: replace space and
hyphen by underscore, strip everything outside `[A-Za-z0-9_]`, then put an
underscore in front when the result starts with a digit. -/
def sanitizeClaim (s : String) : String :=
  match claimStrip (claimReplace s.data) with
  | [] => String.mk []
  | c :: cs => if c.isDigit then String.mk ('_' :: c :: cs) else String.mk (c :: cs)

lemma claimKeep_eq_isAllowedChar (c : Char) : claimKeep c = isAllowedChar c := by
  unfold claimKeep isAllowedChar
  rw [decide_eq_decide]
  tauto

lemma claimReplace_eq_map (l : List Char) : claimReplace l = l.map replaceSpaceHyphen := by
  induction l with
  | nil => rfl
  | cons c cs ih =>
    simp only [claimReplace, List.map_cons, ih, replaceSpaceHyphen]
    by_cases h1 : c = ' '
    · simp [h1]
    · by_cases h2 : c = '-' <;> simp [h1, h2]

lemma claimStrip_eq_filter (l : List Char) : claimStrip l = l.filter isAllowedChar := by
  induction l with
  | nil => rfl
  | cons c cs ih =>
    simp only [claimStrip, List.filter_cons, claimKeep_eq_isAllowedChar, ih]

/-- C1: for every input string, the Name Sanitizer returns the string
obtained by replacing exactly the space and hyphen characters with
underscores, then removing every character outside `[A-Za-z0-9_]`, then
prefixing an underscore if the result starts with a digit; no other
character is replaced by an underscore (the replacement step `claimReplace`
rewrites only `' '` and `'-'`). -/
theorem sanitize_matches_claimed_pipeline (s : String) :
    sanitize_sql_name s = sanitizeClaim s := by
  unfold sanitize_sql_name sanitizeClaim sanitizeChars
  rw [claimStrip_eq_filter, claimReplace_eq_map]
  cases h : (s.data.map replaceSpaceHyphen).filter isAllowedChar with
  | nil => rfl
  | cons c cs => by_cases hd : c.isDigit <;> simp [hd]

lemma sanitizeChars_eq_nil {l : List Char}
    (hf : (l.map replaceSpaceHyphen).filter isAllowedChar = []) :
    sanitizeChars l = [] := by
  unfold sanitizeChars
  rw [hf]

lemma sanitizeChars_eq_cons {l : List Char} {d : Char} {ds : List Char}
    (hf : (l.map replaceSpaceHyphen).filter isAllowedChar = d :: ds) :
    sanitizeChars l = if d.isDigit then '_' :: d :: ds else d :: ds := by
  unfold sanitizeChars
  rw [hf]

lemma mem_sanitizeChars_allowed {l : List Char} {c : Char} (h : c ∈ sanitizeChars l) :
    isAllowedChar c = true := by
  cases hf : (l.map replaceSpaceHyphen).filter isAllowedChar with
  | nil => rw [sanitizeChars_eq_nil hf] at h; simp at h
  | cons d ds =>
    rw [sanitizeChars_eq_cons hf] at h
    have hall : ∀ x ∈ d :: ds, isAllowedChar x = true := by
      intro x hx
      exact List.of_mem_filter (hf ▸ hx)
    by_cases hd : d.isDigit
    · rw [if_pos hd] at h
      rcases List.mem_cons.mp h with rfl | h2
      · decide
      · exact hall c h2
    · rw [if_neg hd] at h
      exact hall c h

lemma sanitizeChars_head_not_digit {l : List Char} {c : Char} {cs : List Char}
    (h : sanitizeChars l = c :: cs) : c.isDigit = false := by
  cases hf : (l.map replaceSpaceHyphen).filter isAllowedChar with
  | nil => rw [sanitizeChars_eq_nil hf] at h; simp at h
  | cons d ds =>
    rw [sanitizeChars_eq_cons hf] at h
    by_cases hd : d.isDigit
    · rw [if_pos hd] at h
      have hc : c = '_' := by
        have := (List.cons.injEq _ _ _ _).mp h.symm
        exact this.1
      rw [hc]
      decide
    · rw [if_neg hd] at h
      have hc : c = d := by
        have := (List.cons.injEq _ _ _ _).mp h.symm
        exact this.1
      rw [hc]
      exact Bool.eq_false_iff.mpr hd

lemma map_id_of {l : List Char} {f : Char → Char} (h : ∀ c ∈ l, f c = c) :
    l.map f = l := by
  induction l with
  | nil => rfl
  | cons c cs ih =>
    simp only [List.map_cons, h c (List.mem_cons_self c cs)]
    rw [ih fun x hx => h x (List.mem_cons_of_mem c hx)]

lemma filter_self_of {l : List Char} {p : Char → Bool} (h : ∀ c ∈ l, p c = true) :
    l.filter p = l := by
  induction l with
  | nil => rfl
  | cons c cs ih =>
    rw [List.filter_cons, if_pos (h c (List.mem_cons_self c cs))]
    rw [ih fun x hx => h x (List.mem_cons_of_mem c hx)]

lemma sanitizeChars_eq_self {l : List Char}
    (hfix : (l.map replaceSpaceHyphen).filter isAllowedChar = l)
    (hd : ∀ c cs, l = c :: cs → c.isDigit = false) :
    sanitizeChars l = l := by
  cases hl : l with
  | nil => subst hl; exact sanitizeChars_eq_nil hfix
  | cons c cs =>
    rw [sanitizeChars_eq_cons (hl ▸ hfix), hd c cs hl]
    simp

lemma sanitizeChars_idem (l : List Char) :
    sanitizeChars (sanitizeChars l) = sanitizeChars l := by
  have hall : ∀ c ∈ sanitizeChars l, isAllowedChar c = true :=
    fun c h => mem_sanitizeChars_allowed h
  have hmap : (sanitizeChars l).map replaceSpaceHyphen = sanitizeChars l := by
    apply map_id_of
    intro c hc
    unfold replaceSpaceHyphen
    rw [if_neg]
    intro hor
    rcases hor with rfl | rfl
    · exact absurd (hall _ hc) (by decide)
    · exact absurd (hall _ hc) (by decide)
  apply sanitizeChars_eq_self
  · rw [hmap]; exact filter_self_of hall
  · intro c cs h
    exact sanitizeChars_head_not_digit h

/-- C5: the Name Sanitizer is idempotent: sanitizing an already-sanitized
name returns it unchanged. -/
theorem sanitize_sql_name_idempotent (s : String) :
    sanitize_sql_name (sanitize_sql_name s) = sanitize_sql_name s := by
  exact congrArg String.mk (sanitizeChars_idem s.data)

/-- C9: for every input string, the Name Sanitizer's output never contains
a character outside `[A-Za-z0-9_]` (the class `claimKeep`), and never
starts with a digit. -/
theorem sanitize_sql_name_wellformed (s : String) :
    (sanitize_sql_name s).data.all claimKeep = true ∧
    ((sanitize_sql_name s).data.take 1).all (fun c => !c.isDigit) = true := by
  constructor
  · rw [List.all_eq_true]
    intro c hc
    rw [claimKeep_eq_isAllowedChar]
    exact mem_sanitizeChars_allowed hc
  · cases h : (sanitize_sql_name s).data with
    | nil => simp
    | cons c cs =>
      have hd : c.isDigit = false := sanitizeChars_head_not_digit h
      simp [hd]

/-- Row normalization from `update_database` (lines 100–104):
`if len(row) < len(headers): row += [''] * (len(headers) - len(row))`
followed by `row = row[:len(headers)]`. -/
def normalizeRow (headers row : List String) : List String :=
  (if row.length < headers.length
   then row ++ List.replicate (headers.length - row.length) ""
   else row).take headers.length

/-- C6: for every input row and header list, the normalized row has exactly
the header's length; short rows are right-padded with empty strings, long
rows are truncated, and the original fields up to that length are kept in
order (the normalized row is the row truncated to the header length,
followed by the padding of empty strings). -/
theorem normalizeRow_spec (headers row : List String) :
    (normalizeRow headers row).length = headers.length ∧
    normalizeRow headers row =
      row.take headers.length ++ List.replicate (headers.length - row.length) "" := by
  unfold normalizeRow
  by_cases h : row.length < headers.length
  · rw [if_pos h]
    have hlen : (row ++ List.replicate (headers.length - row.length) "").length
        = headers.length := by
      rw [List.length_append, List.length_replicate]
      omega
    constructor
    · rw [List.length_take, hlen]
      omega
    · rw [List.take_of_length_le hlen.le, List.take_of_length_le (le_of_lt h)]
  · rw [if_neg h]
    have h0 : headers.length - row.length = 0 := by omega
    constructor
    · rw [List.length_take]
      omega
    · rw [h0, List.replicate_zero, List.append_nil]

/-- Header processing from `update_database` (lines 95–98): sanitize every
raw header; the only emptiness check performed is `if not headers: continue`,
i.e. the file is skipped exactly when the header list itself is empty.
`none` models the `continue` (skip this file). -/
def processHeaderRow (raw_headers : List String) : Option (List String) :=
  let headers := raw_headers.map sanitize_sql_name
  if headers = [] then none else some headers

/-- C7 counterexample: the raw header "€" sanitizes to the empty string,
yet header processing keeps it as an (empty) column name instead of
skipping the affected column: the resulting header list is
`["part_id", ""]`, so the empty identifier is used. -/
theorem processHeaderRow_keeps_empty_name :
    sanitize_sql_name "€" = "" ∧
    processHeaderRow ["part_id", "€"] = some ["part_id", ""] := by
  constructor
  · rfl
  · rfl

/-- C7 amended: `update_database` performs no emptiness check on individual
sanitized names.  Header processing skips a file exactly when the raw header
row is the empty list; otherwise every sanitized header is kept — including
ones that sanitized to the empty string — and a filename stem that sanitizes
to empty is likewise passed on unchecked (it only fails later, inside the
SQL layer). -/
theorem processHeaderRow_only_checks_empty_list (raw_headers : List String) :
    processHeaderRow raw_headers =
      if raw_headers = [] then none
      else some (raw_headers.map sanitize_sql_name) := by
  unfold processHeaderRow
  by_cases h : raw_headers = []
  · simp [h]
  · rw [if_neg (by simpa using h), if_neg h]

/-- `SYSTEM_COLUMNS` from the script (line 29): the fixed list of column
names excluded from the chooser field grid. -/
def SYSTEM_COLUMNS : List String := ["part_id", "symbol", "footprint"]

/-- `VISIBLE_COLUMNS` from the script (line 32): columns whose field entry
gets `visible_on_add: true`. -/
def VISIBLE_COLUMNS : List String := ["value", "rating"]

/-- Python `str.lower()`, on the strings this script compares: all the
compared names are sanitized identifiers or the fixed ASCII literals of the
script, and on ASCII strings Python `lower` is exactly the per-character
ASCII lowercasing `Char.toLower`. -/
def pyLower (s : String) : String :=
  String.mk (s.data.map Char.toLower)

/-- Python `col_name.replace('_', ' ')` for the single-character pattern:
a per-character map. -/
def replaceUnderscoreSpace (s : String) : String :=
  String.mk (s.data.map fun c => if c = '_' then ' ' else c)

/-- Python `str.title()`: words are maximal runs of alphabetic characters;
the first letter of each word is uppercased, the remaining letters are
lowercased.  The boolean argument records whether the previous character
was alphabetic. -/
def titleChars : Bool → List Char → List Char
  | _, [] => []
  | prevAlpha, c :: cs =>
    (if c.isAlpha then (if prevAlpha then c.toLower else c.toUpper) else c)
      :: titleChars c.isAlpha cs

/-- Python `str.title()` on a whole string. -/
def pyTitle (s : String) : String :=
  String.mk (titleChars false s.data)

/-- `get_column_display_name` from the script (lines 45–50). -/
def get_column_display_name (col_name : String) : String :=
  if pyLower col_name = "mpn" then "MPN"
  else if pyLower col_name = "lcsc" then "LCSC"
  else if pyLower col_name = "mfg" then "Manufacturer"
  else pyTitle (replaceUnderscoreSpace col_name)

/-- The metadata recorded per successfully processed CSV file
(`processed_tables.append({...})`, lines 125–129). -/
structure TableSpec where
  display_name : String
  table_name : String
  columns : List String
deriving DecidableEq

/-- One entry of the `fields` list of a library entry (lines 200–205). -/
structure FieldEntry where
  column : String
  name : String
  visible_on_add : Bool
  visible_in_chooser : Bool
deriving DecidableEq

/-- One entry of the `libraries` array of the descriptor (lines 209–217). -/
structure LibraryEntry where
  name : String
  table : String
  key : String
  symbols : String
  footprints : String
  fields : List FieldEntry
  properties : List (String × String)
deriving DecidableEq

/-- The field entry built for one column (lines 198–205):
`is_visible = col.lower() in [v.lower() for v in VISIBLE_COLUMNS]`. -/
def mkFieldEntry (col : String) : FieldEntry :=
  { column := col
    name := get_column_display_name col
    visible_on_add := (VISIBLE_COLUMNS.map pyLower).contains (pyLower col)
    visible_in_chooser := true }

/-- The `fields` accumulation of the per-column loop (lines 183–206):
`if col not in SYSTEM_COLUMNS: fields.append(field_entry)`.  The Python
loop fills `fields` and `properties` in a single pass; the two
accumulators never read each other, so they are embedded as two
independent folds over the same column list. -/
def buildFields (cols : List String) : List FieldEntry :=
  cols.foldl
    (fun fields col =>
      if SYSTEM_COLUMNS.contains col then fields else fields ++ [mkFieldEntry col])
    []

/-- Assignment `d[k] = v` on a CPython dict, modelled on an
insertion-ordered association list: overwrite in place when the key is
present, append otherwise. -/
def dictInsert (d : List (String × String)) (k v : String) : List (String × String) :=
  if d.any (fun p => p.1 == k) then
    d.map (fun p => if p.1 == k then (k, v) else p)
  else d ++ [(k, v)]

/-- The `properties` accumulation of the per-column loop (lines 187–192):
`if col.lower() == 'value': properties['Value'] = col
 else: properties[col] = col`. -/
def buildProperties (cols : List String) : List (String × String) :=
  cols.foldl
    (fun props col =>
      if pyLower col = "value" then dictInsert props "Value" col
      else dictInsert props col col)
    []

/-- The library entry built for one `TableSpec` (lines 164–219), or `none`
when the table is skipped.  Remarks on fidelity:
* `key_col = cols[0]` raises `IndexError` on an empty column list; since
  `update_database` never records an empty header list (`if not headers:
  continue`), theorems that need the key use the hypothesis
  `t.columns ≠ []`, and the embedding is made total with `headD`.
* `if not sym_col or not fp_col` tests Python falsiness, but any string
  whose lowercasing equals "symbol"/"footprint" is nonempty, so falsiness
  coincides with `None`-ness, i.e. with `Option.isNone` here. -/
def generate_library_entry (t : TableSpec) : Option LibraryEntry :=
  match t.columns.find? (fun c => pyLower c == "symbol"),
        t.columns.find? (fun c => pyLower c == "footprint") with
  | some sym_col, some fp_col =>
      some { name := t.display_name
             table := t.table_name
             key := t.columns.headD ""
             symbols := sym_col
             footprints := fp_col
             fields := buildFields t.columns
             properties := buildProperties t.columns }
  | _, _ => none

/-- The `libraries` array of the generated descriptor (lines 164–219):
one entry per table that is not skipped, in table order. -/
def generate_kicad_dbl (tables_data : List TableSpec) : List LibraryEntry :=
  tables_data.foldl
    (fun libs t =>
      match generate_library_entry t with
      | some e => libs ++ [e]
      | none => libs)
    []

lemma buildFields_foldl (cols : List String) (acc : List FieldEntry) :
    cols.foldl
      (fun fields col =>
        if SYSTEM_COLUMNS.contains col then fields else fields ++ [mkFieldEntry col])
      acc
    = acc ++ (cols.filter (fun c => !(SYSTEM_COLUMNS.contains c))).map mkFieldEntry := by
  induction cols generalizing acc with
  | nil => simp
  | cons c cs ih =>
    rw [List.foldl_cons]
    by_cases h : SYSTEM_COLUMNS.contains c
    · have hm : c ∈ SYSTEM_COLUMNS := by simpa using h
      rw [if_pos h, ih, List.filter_cons]
      simp [hm]
    · have hm : c ∉ SYSTEM_COLUMNS := by simpa using h
      rw [if_neg h, ih, List.filter_cons]
      simp [hm]

lemma contains_lower_visible (x : String) :
    (VISIBLE_COLUMNS.map pyLower).contains x =
      decide (x = "value" ∨ x = "rating") := by
  have hmap : VISIBLE_COLUMNS.map pyLower = ["value", "rating"] := by decide
  rw [hmap]
  by_cases h1 : x = "value" <;> by_cases h2 : x = "rating" <;>
    simp [h1, h2, List.contains]

/-- C2 amended: the `fields` list of an included table consists of exactly
those columns whose name is not literally one of the fixed strings
`"part_id"`, `"symbol"`, `"footprint"` (a case-sensitive match against
`SYSTEM_COLUMNS`, regardless of which columns actually serve as the key,
symbol or footprint column), in column order; each emitted field carries
the column's display label, `visible_on_add` true exactly when the column
name lowercases to `"value"` or `"rating"` (the fixed allow-list matched
case-insensitively), and `visible_in_chooser` always true. -/
theorem buildFields_characterization (cols : List String) :
    buildFields cols =
      (cols.filter (fun c => !(SYSTEM_COLUMNS.contains c))).map fun c =>
        { column := c
          name := get_column_display_name c
          visible_on_add := decide (pyLower c = "value" ∨ pyLower c = "rating")
          visible_in_chooser := true } := by
  unfold buildFields
  rw [buildFields_foldl, List.nil_append]
  have hfun : mkFieldEntry = fun c =>
      ({ column := c
         name := get_column_display_name c
         visible_on_add := decide (pyLower c = "value" ∨ pyLower c = "rating")
         visible_in_chooser := true } : FieldEntry) := by
    funext c
    unfold mkFieldEntry
    rw [contains_lower_visible]
  rw [hfun]

/-- C2 counterexample: the table with columns `["id", "symbol",
"footprint"]` is included in the descriptor, its key column is `"id"`
(the first column), and yet `"id"` appears in the `fields` list — the key
column is not excluded, contradicting the claim that the fields list
excludes the key column of the table. -/
theorem fields_keep_nonstandard_key_column :
    (generate_library_entry ⟨"T", "T", ["id", "symbol", "footprint"]⟩).map
        (fun e => (e.key, e.fields.map FieldEntry.column))
      = some ("id", ["id"]) := by
  decide

/-- C3: a `TableSpec` produced by the Table Builder gets a `LibraryEntry`
in the descriptor if and only if its column list contains both a column
that case-insensitively equals "symbol" and a column that
case-insensitively equals "footprint"; a table missing either is omitted.
The hypothesis `t.columns ≠ []` records that `update_database` never
passes an empty column list (Python would raise `IndexError` at
`key_col = cols[0]` there). -/
theorem library_entry_iff_symbol_and_footprint (t : TableSpec)
    (_h : t.columns ≠ []) :
    (generate_library_entry t).isSome ↔
      ((∃ c ∈ t.columns, pyLower c = "symbol") ∧
       (∃ c ∈ t.columns, pyLower c = "footprint")) := by
  unfold generate_library_entry
  cases h1 : t.columns.find? (fun c => pyLower c == "symbol") with
  | none =>
    rw [List.find?_eq_none] at h1
    simp only [Option.isSome_none, Bool.false_eq_true, false_iff]
    intro hc
    obtain ⟨⟨c, hc1, hc2⟩, -⟩ := hc
    exact absurd (by simpa using hc2) (h1 c hc1)
  | some s =>
    cases h2 : t.columns.find? (fun c => pyLower c == "footprint") with
    | none =>
      rw [List.find?_eq_none] at h2
      simp only [Option.isSome_none, Bool.false_eq_true, false_iff]
      intro hc
      obtain ⟨-, ⟨c, hc1, hc2⟩⟩ := hc
      exact absurd (by simpa using hc2) (h2 c hc1)
    | some f =>
      simp only [Option.isSome_some, true_iff]
      constructor
      · exact ⟨s, List.mem_of_find?_eq_some h1, by simpa using List.find?_some h1⟩
      · exact ⟨f, List.mem_of_find?_eq_some h2, by simpa using List.find?_some h2⟩

/-- Witness for C3 at a concrete table with both special columns. -/
theorem library_entry_iff_symbol_and_footprint_witness :
    (generate_library_entry
        ⟨"Capacitors", "Capacitors", ["part_id", "symbol", "footprint", "value"]⟩).isSome
      = true := by
  exact (library_entry_iff_symbol_and_footprint
      ⟨"Capacitors", "Capacitors", ["part_id", "symbol", "footprint", "value"]⟩
      (by decide)).mpr
    ⟨⟨"symbol", by decide, by decide⟩, ⟨"footprint", by decide, by decide⟩⟩

/-- Following the words of claim C10: the first column in header order
satisfying the case-insensitive match with the given target name. -/
def firstMatchingColumn (target : String) : List String → Option String
  | [] => none
  | c :: cs => if pyLower c = target then some c else firstMatchingColumn target cs

lemma find?_eq_firstMatchingColumn (target : String) (l : List String) :
    l.find? (fun c => pyLower c == target) = firstMatchingColumn target l := by
  induction l with
  | nil => rfl
  | cons c cs ih =>
    unfold firstMatchingColumn
    by_cases h : pyLower c = target
    · rw [List.find?_cons_of_pos _ (by simpa using h), if_pos h]
    · rw [List.find?_cons_of_neg _ (by simpa using h), if_neg h, ih]

lemma find?_length_pos {target : String} {l : List String}
    (h : 1 < (l.filter (fun c => pyLower c == target)).length) :
    (l.find? (fun c => pyLower c == target)).isSome := by
  rw [List.find?_isSome]
  have hne : l.filter (fun c => pyLower c == target) ≠ [] := by
    intro h0
    rw [h0] at h
    simp at h
  obtain ⟨x, hx⟩ := List.exists_mem_of_ne_nil _ hne
  exact ⟨x, (List.mem_filter.mp hx).1, (List.mem_filter.mp hx).2⟩

/-- C10: the two duplications independently.  When a table's column list
contains more than one column case-insensitively equal to "symbol" (and a
footprint column exists, so that an entry is emitted at all), the entry's
`symbols` field is the first symbol-matching column in header order; and
respectively, when it contains more than one column case-insensitively
equal to "footprint" (and a symbol column exists), the entry's
`footprints` field is the first footprint-matching column (Python
`next((c for c in cols if c.lower() == ...), None)` keeps the first
match). -/
theorem library_entry_uses_first_match (t : TableSpec) :
    (1 < (t.columns.filter (fun c => pyLower c == "symbol")).length →
      (∃ c ∈ t.columns, pyLower c = "footprint") →
      (generate_library_entry t).map LibraryEntry.symbols
        = firstMatchingColumn "symbol" t.columns) ∧
    (1 < (t.columns.filter (fun c => pyLower c == "footprint")).length →
      (∃ c ∈ t.columns, pyLower c = "symbol") →
      (generate_library_entry t).map LibraryEntry.footprints
        = firstMatchingColumn "footprint" t.columns) := by
  constructor
  · intro hs hfp
    have hs' := find?_length_pos hs
    have hf' : (t.columns.find? (fun c => pyLower c == "footprint")).isSome := by
      rw [List.find?_isSome]
      obtain ⟨c, hc1, hc2⟩ := hfp
      exact ⟨c, hc1, by simpa using hc2⟩
    obtain ⟨s, hsome⟩ := Option.isSome_iff_exists.mp hs'
    obtain ⟨f, hfome⟩ := Option.isSome_iff_exists.mp hf'
    unfold generate_library_entry
    rw [hsome, hfome, ← find?_eq_firstMatchingColumn, hsome]
    rfl
  · intro hf hsym
    have hf' := find?_length_pos hf
    have hs' : (t.columns.find? (fun c => pyLower c == "symbol")).isSome := by
      rw [List.find?_isSome]
      obtain ⟨c, hc1, hc2⟩ := hsym
      exact ⟨c, hc1, by simpa using hc2⟩
    obtain ⟨s, hsome⟩ := Option.isSome_iff_exists.mp hs'
    obtain ⟨f, hfome⟩ := Option.isSome_iff_exists.mp hf'
    unfold generate_library_entry
    rw [hsome, hfome, ← find?_eq_firstMatchingColumn, hfome]
    rfl

/-- Witness for C10 at a concrete table with a duplicated symbol column
and a SINGLE footprint column: the first clause applies on its own and the
first symbol match in header order is picked. -/
theorem library_entry_uses_first_match_witness :
    ((1 < (["part_id", "symbol", "SYMBOL", "footprint"].filter
            (fun c => pyLower c == "symbol")).length) ∧
      "footprint" ∈ ["part_id", "symbol", "SYMBOL", "footprint"] ∧
      pyLower "footprint" = "footprint") ∧
    (generate_library_entry
        ⟨"T", "T", ["part_id", "symbol", "SYMBOL", "footprint"]⟩).map
          LibraryEntry.symbols
      = firstMatchingColumn "symbol" ["part_id", "symbol", "SYMBOL", "footprint"] := by
  refine ⟨⟨by decide, by decide, by decide⟩, ?_⟩
  exact (library_entry_uses_first_match
      ⟨"T", "T", ["part_id", "symbol", "SYMBOL", "footprint"]⟩).1
    (by decide) ⟨"footprint", by decide, by decide⟩

/-- Key lookup on the association-list model of a Python dict: the value
stored at the first (and, for lists built by `dictInsert`, only) occurrence
of the key. -/
def lookupStr (k : String) : List (String × String) → Option String
  | [] => none
  | (k1, v1) :: es => if k = k1 then some v1 else lookupStr k es

lemma lookup_map_update (k v k' : String) (d : List (String × String)) :
    lookupStr k' (d.map (fun p => if p.1 == k then (k, v) else p)) =
      if k' = k ∧ d.any (fun p => p.1 == k) then some v else lookupStr k' d := by
  induction d with
  | nil => simp [lookupStr]
  | cons a t ih =>
    obtain ⟨a1, a2⟩ := a
    rw [List.map_cons, List.any_cons]
    by_cases h1 : a1 = k
    · have hb : (a1 == k) = true := by simpa using h1
      rw [hb, if_pos rfl]
      by_cases h2 : k' = k
      · simp [lookupStr, h2]
      · have h4 : ¬k' = a1 := fun hh => h2 (hh.trans h1)
        have hc1 : ¬(k' = k ∧ (t.any fun p => p.1 == k) = true) := fun hh => h2 hh.1
        have hc2 : ¬(k' = k ∧ (true || t.any fun p => p.1 == k) = true) := fun hh => h2 hh.1
        simp only [lookupStr]
        rw [if_neg h2, ih, if_neg hc1, if_neg hc2, if_neg h4]
    · have hb : (a1 == k) = false := by simpa using h1
      rw [hb, if_neg (by simp)]
      by_cases h2 : k' = a1
      · subst h2
        simp [lookupStr, h1]
      · have h5 : ¬k = a1 := fun hh => h1 hh.symm
        by_cases h3 : k' = k
        · simp only [lookupStr]
          rw [if_neg h2, ih, Bool.false_or, if_neg h2]
        · simp only [lookupStr]
          rw [if_neg h2, ih]
          simp [h2, h3]

lemma lookup_eq_none_of_any_eq_false {d : List (String × String)} {k : String}
    (h : d.any (fun p => p.1 == k) = false) : lookupStr k d = none := by
  induction d with
  | nil => rfl
  | cons a t ih =>
    obtain ⟨a1, a2⟩ := a
    simp only [List.any_cons, Bool.or_eq_false_iff] at h
    have h2 : ¬(k = a1) := fun hh => by simp [hh] at h
    simp [lookupStr, h2, ih h.2]

lemma lookup_append (d e : List (String × String)) (a : String) :
    lookupStr a (d ++ e) =
      match lookupStr a d with
      | some b => some b
      | none => lookupStr a e := by
  induction d with
  | nil => simp [lookupStr]
  | cons x t ih =>
    obtain ⟨x1, x2⟩ := x
    by_cases h : a = x1
    · simp [lookupStr, h]
    · simp [lookupStr, h, ih]

lemma lookup_dictInsert (d : List (String × String)) (k v k' : String) :
    lookupStr k' (dictInsert d k v) = if k' = k then some v else lookupStr k' d := by
  unfold dictInsert
  by_cases hmem : d.any (fun p => p.1 == k)
  · rw [if_pos hmem, lookup_map_update]
    by_cases h2 : k' = k <;> simp [h2, hmem]
  · rw [if_neg hmem, lookup_append]
    by_cases h2 : k' = k
    · subst h2
      rw [lookup_eq_none_of_any_eq_false (Bool.eq_false_iff.mpr hmem)]
      simp [lookupStr]
    · cases hd : lookupStr k' d with
      | some b => simp [hd, h2]
      | none => simp [hd, lookupStr, h2]

/-- The dict key under which the per-column loop stores a column in
`properties` (lines 189–192): `"Value"` for a column whose lowercasing is
`"value"`, the column name itself otherwise. -/
def propKey (col : String) : String :=
  if pyLower col = "value" then "Value" else col

lemma buildProperties_eq_foldl (cols : List String) :
    buildProperties cols =
      cols.foldl (fun props col => dictInsert props (propKey col) col) [] := by
  unfold buildProperties
  congr 1
  funext props col
  unfold propKey
  by_cases h : pyLower col = "value" <;> simp [h]

lemma getLast?_cons_match {α : Type} (a : α) (l : List α) :
    (a :: l).getLast? =
      match l.getLast? with
      | some x => some x
      | none => some a := by
  cases hl : l.getLast? with
  | none =>
    have : l = [] := List.getLast?_eq_none_iff.mp hl
    subst this
    rfl
  | some x =>
    cases l with
    | nil => simp at hl
    | cons b bs => rw [List.getLast?_cons_cons, hl]

lemma buildProperties_lookup_aux (cols : List String)
    (d : List (String × String)) (k : String) :
    lookupStr k (cols.foldl (fun props col => dictInsert props (propKey col) col) d) =
      match (cols.filter (fun c => propKey c == k)).getLast? with
      | some c => some c
      | none => lookupStr k d := by
  induction cols generalizing d with
  | nil => simp
  | cons c cs ih =>
    rw [List.foldl_cons, ih]
    by_cases h : propKey c = k
    · rw [List.filter_cons_of_pos (by simpa using h), getLast?_cons_match]
      cases hcs : (cs.filter (fun x => propKey x == k)).getLast? with
      | some x => simp
      | none => rw [lookup_dictInsert, if_pos h.symm]
    · rw [List.filter_cons_of_neg (by simpa using h)]
      cases hcs : (cs.filter (fun x => propKey x == k)).getLast? with
      | some x => simp
      | none => rw [lookup_dictInsert, if_neg (fun hh => h hh.symm)]

lemma buildProperties_lookup (cols : List String) (k : String) :
    lookupStr k (buildProperties cols) =
      (cols.filter (fun c => propKey c == k)).getLast? := by
  rw [buildProperties_eq_foldl, buildProperties_lookup_aux]
  cases (cols.filter (fun c => propKey c == k)).getLast? <;> rfl

/-- C4 amended: in the properties mapping of an included table, every
column whose lowercasing is not "value" is mapped to itself under its own
name; the key "Value" holds the LAST column (in column order) whose
lowercasing is "value" — when several columns lowercase to "value", each
dict assignment overwrites the previous one, so only the last such column
survives and the earlier ones are absent from the mapping; and the "Value"
key is present if and only if at least one such column exists.  (With at
most one column lowercasing to "value" — the only situation a real run can
produce, since SQLite rejects case-insensitively duplicate column names
before the TableSpec is ever recorded — this coincides with claim C4.) -/
theorem buildProperties_characterization (cols : List String) :
    (∀ c ∈ cols, pyLower c ≠ "value" →
      lookupStr c (buildProperties cols) = some c) ∧
    lookupStr "Value" (buildProperties cols) =
      (cols.filter (fun c => pyLower c == "value")).getLast? ∧
    ((lookupStr "Value" (buildProperties cols)).isSome ↔
      ∃ c ∈ cols, pyLower c = "value") := by
  have h2 : lookupStr "Value" (buildProperties cols) =
      (cols.filter (fun c => pyLower c == "value")).getLast? := by
    rw [buildProperties_lookup]
    congr 1
    apply List.filter_congr
    intro c _
    unfold propKey
    by_cases h : pyLower c = "value"
    · simp [h]
    · rw [if_neg h]
      have hne : ¬(c = "Value") := by
        intro hc
        subst hc
        exact h (by decide)
      simp [hne, h]
  refine ⟨?_, h2, ?_⟩
  · intro c hc hlow
    rw [buildProperties_lookup]
    have hpk : propKey c = c := by
      unfold propKey
      rw [if_neg hlow]
    have hmemf : c ∈ cols.filter (fun x => propKey x == c) :=
      List.mem_filter.mpr ⟨hc, by simp [hpk]⟩
    obtain ⟨x, hx⟩ := Option.isSome_iff_exists.mp
      (List.getLast?_isSome.mpr (List.ne_nil_of_mem hmemf))
    have hxf := List.mem_of_getLast?_eq_some hx
    have hpx : propKey x = c := by simpa using (List.mem_filter.mp hxf).2
    have hxc : x = c := by
      by_cases hv : pyLower x = "value"
      · unfold propKey at hpx
        rw [if_pos hv] at hpx
        exact absurd (by rw [← hpx]; decide) hlow
      · unfold propKey at hpx
        rw [if_neg hv] at hpx
        exact hpx
    rw [hx, hxc]
  · rw [h2, List.getLast?_isSome]
    constructor
    · intro hne
      obtain ⟨x, hx⟩ := List.exists_mem_of_ne_nil _ hne
      exact ⟨x, (List.mem_filter.mp hx).1, by simpa using (List.mem_filter.mp hx).2⟩
    · rintro ⟨c, hc1, hc2⟩
      exact List.ne_nil_of_mem (List.mem_filter.mpr ⟨hc1, by simpa using hc2⟩)

/-- Witness for C4 amended at a concrete column list: the ordinary column
"mfg" is mapped to itself. -/
theorem buildProperties_characterization_witness :
    ("mfg" ∈ ["part_id", "value", "symbol", "footprint", "mfg"] ∧
      pyLower "mfg" ≠ "value") ∧
    lookupStr "mfg"
        (buildProperties ["part_id", "value", "symbol", "footprint", "mfg"])
      = some "mfg" := by
  refine ⟨⟨by decide, by decide⟩, ?_⟩
  exact (buildProperties_characterization
      ["part_id", "value", "symbol", "footprint", "mfg"]).1
    "mfg" (by decide) (by decide)

/-- C4 counterexample: for the included table with columns
`["part_id", "value", "VALUE", "symbol", "footprint"]` — both "value" and
"VALUE" lowercase to "value" — the properties mapping holds only
`"Value" ↦ "VALUE"`: the column "value" is neither mapped under the key
"Value" (which holds "VALUE") nor under its own name, contradicting the
claim that any column case-insensitively equal to "value" is mapped under
the key "Value". -/
theorem properties_lose_duplicate_value_column :
    (generate_library_entry
        ⟨"T", "T", ["part_id", "value", "VALUE", "symbol", "footprint"]⟩).map
        (fun e => (lookupStr "Value" e.properties, lookupStr "value" e.properties))
      = some (some "VALUE", none) := by
  decide

/-- The outcome of the SQL block (lines 111–120) for one file, as produced
by the external SQLite library: success, a `sqlite3.OperationalError` with
its message, or an exception of any other class (e.g. a
`sqlite3.IntegrityError` raised by `executemany` on a duplicate primary
key).  The script's behaviour depends only on this classification. -/
inductive SqlOutcome where
  | ok : SqlOutcome
  | operationalError : String → SqlOutcome
  | otherError : SqlOutcome
deriving DecidableEq

/-- How a run of the table-building loop ends: normal completion with the
recorded `TableSpec`s, the `sys.exit(1)` taken on a lock message (line
134), or an exception propagating out of `update_database` uncaught. -/
inductive RunResult where
  | completed : List TableSpec → RunResult
  | exitedNonZero : RunResult
  | crashedUncaught : RunResult
deriving DecidableEq

/-- Python substring test `needle in hay` on character lists. -/
def listContainsSub (needle : List Char) : List Char → Bool
  | [] => needle.isPrefixOf []
  | c :: t => needle.isPrefixOf (c :: t) || listContainsSub needle t

/-- The lock test of line 132: `"locked" in str(e)`. -/
def containsLocked (msg : String) : Bool :=
  listContainsSub "locked".data msg.data

/-- The per-file SQL phase of `update_database` (lines 111–135), for the
files that survived the read phase, each paired with the outcome of its
SQL block.  `except sqlite3.OperationalError` catches only that class: a
lock message runs `sys.exit(1)`; any other `OperationalError` is printed
and the file yields no `TableSpec`; an exception of any other class is
not caught and aborts the whole run. -/
def processFiles : List (TableSpec × SqlOutcome) → RunResult
  | [] => RunResult.completed []
  | (spec, SqlOutcome.ok) :: rest =>
    match processFiles rest with
    | RunResult.completed ts => RunResult.completed (spec :: ts)
    | r => r
  | (_, SqlOutcome.operationalError msg) :: rest =>
    if containsLocked msg then RunResult.exitedNonZero
    else processFiles rest
  | (_, SqlOutcome.otherError) :: _ => RunResult.crashedUncaught

/-- C8 counterexample: a per-file SQL error that is not a
`sqlite3.OperationalError` (e.g. an `IntegrityError` from a duplicate
primary key in a CSV) does NOT cause only that file to be skipped: the
uncaught exception aborts the run, and the following file — which would
have succeeded — is never processed, contradicting the claim that every
non-lock per-file SQL error lets processing continue. -/
theorem nonoperational_sql_error_aborts_run :
    processFiles
        [(⟨"A", "A", ["part_id"]⟩, SqlOutcome.otherError),
         (⟨"B", "B", ["part_id"]⟩, SqlOutcome.ok)]
      = RunResult.crashedUncaught ∧
    processFiles
        [(⟨"A", "A", ["part_id"]⟩, SqlOutcome.otherError),
         (⟨"B", "B", ["part_id"]⟩, SqlOutcome.ok)]
      ≠ RunResult.completed [⟨"B", "B", ["part_id"]⟩] := by
  constructor
  · rfl
  · decide

/-- C8 amended: during table creation and loading, an
`sqlite3.OperationalError` whose message contains "locked" aborts the
entire run with a non-zero exit status (provided the files before it did
not already abort the run); every other `sqlite3.OperationalError` causes
only that file to be skipped (no `TableSpec` recorded) and processing to
continue with the remaining files; but an SQL error of any other exception
class is not caught and aborts the whole run. -/
theorem processFiles_error_semantics :
    (∀ pre spec msg rest,
      (∀ f ∈ pre, f.2 = SqlOutcome.ok ∨
        ∃ m, f.2 = SqlOutcome.operationalError m ∧ containsLocked m = false) →
      containsLocked msg = true →
      processFiles (pre ++ (spec, SqlOutcome.operationalError msg) :: rest)
        = RunResult.exitedNonZero) ∧
    (∀ spec msg rest, containsLocked msg = false →
      processFiles ((spec, SqlOutcome.operationalError msg) :: rest)
        = processFiles rest) ∧
    (∀ spec rest,
      processFiles ((spec, SqlOutcome.otherError) :: rest)
        = RunResult.crashedUncaught) := by
  refine ⟨?_, ?_, ?_⟩
  · intro pre spec msg rest hpre hlock
    induction pre with
    | nil =>
      rw [List.nil_append]
      show (if containsLocked msg then RunResult.exitedNonZero
            else processFiles rest) = RunResult.exitedNonZero
      rw [if_pos hlock]
    | cons f fs ih =>
      obtain ⟨fspec, fout⟩ := f
      have hf := hpre ⟨fspec, fout⟩ (List.mem_cons_self _ _)
      have hrest : ∀ g ∈ fs, g.2 = SqlOutcome.ok ∨
          ∃ m, g.2 = SqlOutcome.operationalError m ∧ containsLocked m = false :=
        fun g hg => hpre g (List.mem_cons_of_mem _ hg)
      rcases hf with hok | ⟨m, hop, hm⟩
      · simp only at hok
        subst hok
        rw [List.cons_append]
        show (match processFiles (fs ++ (spec, SqlOutcome.operationalError msg) :: rest) with
              | RunResult.completed ts => RunResult.completed (fspec :: ts)
              | r => r) = RunResult.exitedNonZero
        rw [ih hrest]
      · simp only at hop
        subst hop
        rw [List.cons_append]
        show (if containsLocked m then RunResult.exitedNonZero
              else processFiles (fs ++ (spec, SqlOutcome.operationalError msg) :: rest))
            = RunResult.exitedNonZero
        rw [if_neg (by simp [hm]), ih hrest]
  · intro spec msg rest hm
    show (if containsLocked msg then RunResult.exitedNonZero
          else processFiles rest) = processFiles rest
    rw [if_neg (by simp [hm])]
  · intro spec rest
    rfl

/-- Witness for C8 amended: a run whose first file succeeds and whose
second file hits an `OperationalError` with a "locked" message exits
non-zero. -/
theorem processFiles_error_semantics_witness :
    containsLocked "database is locked" = true ∧
    processFiles
        [(⟨"A", "A", ["part_id"]⟩, SqlOutcome.ok),
         (⟨"B", "B", ["part_id"]⟩,
          SqlOutcome.operationalError "database is locked")]
      = RunResult.exitedNonZero := by
  refine ⟨by decide, ?_⟩
  exact processFiles_error_semantics.1
    [(⟨"A", "A", ["part_id"]⟩, SqlOutcome.ok)]
    ⟨"B", "B", ["part_id"]⟩
    "database is locked"
    []
    (by
      intro f hf
      rw [List.mem_singleton] at hf
      subst hf
      exact Or.inl rfl)
    (by decide)
